import Mathlib

/-!
Verification development for the embedding-bot ingestion pipeline.

Shallow embedding of the Python sources:
  - `src/embeddings/segmenter.py`  (sentence chunking, line splitting)
  - `src/embeddings/agent.py`      (retry/backoff embedding client)
  - `src/ingestion/services.py`    (pipeline orchestration, storage retry, export)
  - `src/ingestion/vector_store.py` (per-tenant vector store operations)

Python strings are modelled as `List Char`; machine floats only appear as
opaque vector payloads and are modelled as `Int` components (no float
arithmetic is ever performed by the verified code paths).
-/

namespace EmbedBot

/-- Python `str` is modelled as a list of characters. -/
abbrev Str := List Char

/-- An embedding vector; components are opaque payloads (no arithmetic). -/
abbrev Vec := List Int

/-- Convert a Lean string literal to the `List Char` model. -/
def chars (s : String) : Str := s.data

/-! ## Segmenter: `src/embeddings/segmenter.py` -/

/-- Whitespace characters relevant to Python `str.strip` / `str.split`. -/
def isSpaceChar (c : Char) : Bool :=
  c == ' ' || c == '\t' || c == '\n' || c == '\r'

/-- Python `str.lstrip()`. -/
def lstrip (s : Str) : Str := s.dropWhile isSpaceChar

/-- Python `str.rstrip()`. -/
def rstrip (s : Str) : Str := (s.reverse.dropWhile isSpaceChar).reverse

/-- Python `str.strip()`. -/
def pyStrip (s : Str) : Str := rstrip (lstrip s)

/-- Splitter into whitespace-separated words (the spec's notion of the
words of a chunk, "ignoring whitespace normalization"); `acc` holds the
reversed current word. -/
def wordsGo : Str → Str → List Str
  | [], acc => if acc.isEmpty then [] else [acc.reverse]
  | c :: rest, acc =>
    if isSpaceChar c then
      if acc.isEmpty then wordsGo rest [] else acc.reverse :: wordsGo rest []
    else
      wordsGo rest (c :: acc)

/-- The whitespace-separated words of a string. -/
def wordsOf (s : Str) : List Str := wordsGo s []

/-- Concatenation of the words of every string in a list. -/
def wordsConcat (l : List Str) : List Str := (l.map wordsOf).flatten

/-- Python `" ".join(l)`. -/
def joinSp : List Str → Str
  | [] => []
  | [s] => s
  | s :: s2 :: rest => s ++ ' ' :: joinSp (s2 :: rest)

/-- The chunk-packing loop of `chunk_sentences` (segmenter.py lines 24-50):
`chunks` is the output accumulator, `buffer` the current chunk's sentences,
`charCount` the character count of the buffered sentences. -/
def chunkGo (maxS maxC : Nat) : List Str → List Str → List Str → Nat → List Str
  | [], chunks, buffer, _ =>
    if buffer = [] then chunks else chunks ++ [joinSp buffer]
  | s :: rest, chunks, buffer, charCount =>
    let t := pyStrip s
    if t = [] then chunkGo maxS maxC rest chunks buffer charCount
    else if buffer ≠ [] ∧ (maxS ≤ buffer.length ∨ maxC < charCount + t.length) then
      chunkGo maxS maxC rest (chunks ++ [joinSp buffer]) [t] t.length
    else
      chunkGo maxS maxC rest chunks (buffer ++ [t]) (charCount + t.length)

/-- `chunk_sentences(sentences, max_sentences, max_characters)` from
segmenter.py: greedy packing of stripped, non-empty sentences. -/
def chunk_sentences (sentences : List Str) (maxS maxC : Nat) : List Str :=
  chunkGo maxS maxC sentences [] [] 0

/-- `MAX_CHARACTERS_PER_CHUNK = 200` (segmenter.py line 8). -/
def MAX_CHARACTERS_PER_CHUNK : Nat := 200

/-- Python `str.splitlines()` restricted to the newline character; `acc`
holds the reversed current line. -/
def splitLinesGo : Str → Str → List Str
  | [], acc => if acc.isEmpty then [] else [acc.reverse]
  | c :: rest, acc =>
    if c = '\n' then acc.reverse :: splitLinesGo rest []
    else splitLinesGo rest (c :: acc)

def splitLines (s : Str) : List Str := splitLinesGo s []

/-- The slice loop `for start in range(0, len(line), n): line[start:start+n]`
(segmenter.py lines 84-85); `n = 0` never occurs at the call site. -/
def sliceChunks (n : Nat) (l : Str) : List Str :=
  if h : l = [] ∨ n = 0 then []
  else l.take n :: sliceChunks n (l.drop n)
termination_by l.length
decreasing_by
  push_neg at h
  obtain ⟨hl, hn⟩ := h
  have hlen : 0 < l.length := List.length_pos.mpr hl
  simp only [List.length_drop]
  omega

/-- Body of `_split_lines_preserving_order` (segmenter.py lines 75-86):
strip each line, skip empties, keep short lines whole, hard-wrap long
lines at `MAX_CHARACTERS_PER_CHUNK`. -/
def linesToSegments : List Str → List Str
  | [] => []
  | raw :: rest =>
    let line := pyStrip raw
    if line = [] then linesToSegments rest
    else if line.length ≤ MAX_CHARACTERS_PER_CHUNK then line :: linesToSegments rest
    else sliceChunks MAX_CHARACTERS_PER_CHUNK line ++ linesToSegments rest

/-- `_split_lines_preserving_order(text)` from segmenter.py. -/
def split_lines_preserving_order (text : Str) : List Str :=
  linesToSegments (splitLines text)

/-- `segment_text(text, max_sentences, max_characters, language, min_words,
min_alpha_ratio, force_line_chunks)` from segmenter.py lines 89-117.

The two external `nltk` capabilities are parameters of the model:
`tokenize` stands for `nltk.sent_tokenize(text, language)` and
`informative` for `_sentence_is_informative` (whose internals call
`nltk.word_tokenize`); both are opaque to the claims verified here. -/
def segment_text (tokenize : Str → List Str) (informative : Str → Bool)
    (text : Str) (maxS maxC : Nat) (force_line_chunks : Bool) : List Str :=
  if force_line_chunks then split_lines_preserving_order text
  else
    chunk_sentences ((tokenize text).filter informative) maxS
      (min maxC MAX_CHARACTERS_PER_CHUNK)

/-! ## EmbeddingAgent: `src/embeddings/agent.py` -/

/-- Outcomes of one `client.embeddings.create` call, following the except
clauses of the `embed` node (agent.py lines 69-98): the three transient
exception classes, `APIStatusError` with its HTTP status code (401 auth
failures and 400 malformed requests are `APIStatusError`s), and any other
exception, which no clause catches. -/
inductive EmbedErr where
  | rateLimitErr
  | apiTimeoutErr
  | apiConnectionErr
  | apiStatusErr (status : Nat)
  | otherErr
deriving DecidableEq

/-- Whether the retry loop treats a failure as transient: the
`(RateLimitError, APITimeoutError, APIConnectionError)` clause, or the
`APIStatusError` clause with `status_code == 429`. -/
def isTransientCaught : EmbedErr → Bool
  | EmbedErr.rateLimitErr => true
  | EmbedErr.apiTimeoutErr => true
  | EmbedErr.apiConnectionErr => true
  | EmbedErr.apiStatusErr status => status == 429
  | EmbedErr.otherErr => false

/-- `API_MAX_RETRIES = 6` (agent.py line 23). -/
def API_MAX_RETRIES : Nat := 6

/-- `API_RETRY_BASE_DELAY = 4.0` (agent.py line 24), as a rational. -/
def API_RETRY_BASE_DELAY : ℚ := 4

/-- The backoff slept before a retry after failed attempt `attempt`:
`API_RETRY_BASE_DELAY * attempt + random.uniform(0, API_RETRY_BASE_DELAY)`;
`jitter` is the oracle for the sampled `random.uniform` values. -/
def retryDelay (jitter : Nat → ℚ) (attempt : Nat) : ℚ :=
  API_RETRY_BASE_DELAY * (attempt : ℚ) + jitter attempt

deriving instance DecidableEq for Except

/-- Observable behaviour of one single-text embedding: the final outcome,
how many API calls were made, and the backoff sleeps performed in order. -/
structure EmbedTrace where
  result : Except EmbedErr Vec
  calls : Nat
  sleeps : List ℚ
deriving DecidableEq

/-- The retry loop `for attempt in range(1, API_MAX_RETRIES + 1)` of the
`embed` node (agent.py lines 62-98). `provider attempt` is the outcome of
the API call made on that attempt; `fuel` counts the loop iterations that
`range` still allows, so the loop is entered with
`fuel = API_MAX_RETRIES` and `attempt = 1`. The fuel-0 case is the
unreachable fall-through of the `for` (Python would hit an unbound
`response`). -/
def embedGo (provider : Nat → Except EmbedErr Vec) (jitter : Nat → ℚ) :
    Nat → Nat → EmbedTrace
  | 0, _ => ⟨Except.error EmbedErr.otherErr, 0, []⟩
  | fuel + 1, attempt =>
    match provider attempt with
    | Except.ok v => ⟨Except.ok v, 1, []⟩
    | Except.error e =>
      if isTransientCaught e then
        if attempt = API_MAX_RETRIES then ⟨Except.error e, 1, []⟩
        else
          let r := embedGo provider jitter fuel (attempt + 1)
          ⟨r.result, r.calls + 1, retryDelay jitter attempt :: r.sleeps⟩
      else ⟨Except.error e, 1, []⟩

/-- One single-text embedding with retries, as performed by the `embed`
graph node for the text at the current index. -/
def embedSingle (provider : Nat → Except EmbedErr Vec) (jitter : Nat → ℚ) : EmbedTrace :=
  embedGo provider jitter API_MAX_RETRIES 1

/-- `SEGMENT_BATCH_SIZE = 10` (agent.py line 25). -/
def SEGMENT_BATCH_SIZE : Nat := 10

/-- The compiled-graph loop of `embed_texts` over one batch (agent.py
lines 54-118): the `embed` node embeds `texts[index]`, appends the vector
and increments `index`; the router re-enters the node until
`index >= len(texts)`. `f t` is the final outcome of the per-text retry
loop (the `.result` of its `embedSingle` run); a raised exception aborts
the whole invoke. -/
def graphRun (f : Str → Except EmbedErr Vec) (texts : List Str)
    (index : Nat) (embs : List Vec) : Except EmbedErr (List Vec) :=
  if h : index < texts.length then
    match f (texts.get ⟨index, h⟩) with
    | Except.error e => Except.error e
    | Except.ok v => graphRun f texts (index + 1) (embs ++ [v])
  else Except.ok embs
termination_by texts.length - index

/-- Specification-side definition (from the spec's words, for the
refinement claim that "batch boundaries are invisible"): embed the texts
one by one, left to right, with no batching at all. -/
def seqEmbed (f : Str → Except EmbedErr Vec) : List Str → Except EmbedErr (List Vec)
  | [] => Except.ok []
  | t :: rest =>
    match f t with
    | Except.error e => Except.error e
    | Except.ok v =>
      match seqEmbed f rest with
      | Except.error e => Except.error e
      | Except.ok vs => Except.ok (v :: vs)

/-- The batch loop of `embed_texts` (agent.py lines 125-136):
`for batch_start in range(0, len(texts), SEGMENT_BATCH_SIZE)`, invoking
the graph on each 10-element slice and extending `results`. -/
def embedBatches (f : Str → Except EmbedErr Vec) (ts : List Str) :
    Except EmbedErr (List Vec) :=
  if ts = [] then Except.ok []
  else
    match graphRun f (ts.take SEGMENT_BATCH_SIZE) 0 [] with
    | Except.error e => Except.error e
    | Except.ok r =>
      match embedBatches f (ts.drop SEGMENT_BATCH_SIZE) with
      | Except.error e => Except.error e
      | Except.ok rest => Except.ok (r ++ rest)
termination_by ts.length
decreasing_by
  have hpos : 0 < ts.length := List.length_pos.mpr (by assumption)
  simp only [List.length_drop, SEGMENT_BATCH_SIZE]
  omega

/-- `EmbeddingAgent.embed_texts` (agent.py lines 120-136). -/
def embed_texts (f : Str → Except EmbedErr Vec) (texts : List Str) :
    Except EmbedErr (List Vec) :=
  if texts = [] then Except.ok [] else embedBatches f texts

/-! ## Vector store: `src/ingestion/vector_store.py` and the storage phase
of `apply_embeddings` in `src/ingestion/services.py` -/

/-- One row of the `n8n-embed` table (models.py lines 62-69): auto-id is
modelled by list position (rows are kept in insertion order, and both
`fetch_segments` and the export query order by `id`). The misspelled
column names `tittle` / `embeding` are the code's own. -/
structure Row where
  tittle : Str
  body : Str
  embeding : Vec
deriving DecidableEq

/-- `tittle LIKE 'prefix%'` / Django `tittle__startswith=prefix`. -/
def rowMatches (p : Str) (r : Row) : Bool := List.isPrefixOf p r.tittle

/-- `DELETE FROM ... WHERE tittle LIKE 'prefix%'`. -/
def deleteRows (p : Str) (store : List Row) : List Row :=
  store.filter (fun r => ! rowMatches p r)

/-- `SELECT ... WHERE tittle LIKE 'prefix%' ORDER BY id`. -/
def fetchRows (p : Str) (store : List Row) : List Row :=
  store.filter (fun r => rowMatches p r)

/-- One database transaction (`transaction.atomic` block) acting on the
tenant's table. -/
inductive TxOp where
  | deleteTx (p : Str)
  | insertTx (entries : List Row)
  | replaceTx (p : Str) (entries : List Row)
deriving DecidableEq

/-- Effect of one committed transaction on the table state.
`replaceTx` is `VectorStoreService.replace_segments` (vector_store.py
lines 35-38): delete by prefix then, if `entries` is non-empty, bulk
insert, inside the single atomic block. -/
def applyTx : TxOp → List Row → List Row
  | TxOp.deleteTx p, s => deleteRows p s
  | TxOp.insertTx entries, s => s ++ entries
  | TxOp.replaceTx p entries, s =>
    if entries.isEmpty then deleteRows p s else deleteRows p s ++ entries

/-- Final state after a sequence of transactions. -/
def applyOps (ops : List TxOp) (s : List Row) : List Row :=
  ops.foldl (fun acc op => applyTx op acc) s

/-- The table states visible to other transactions while a sequence of
transactions commits one by one (the store's isolation makes each single
transaction atomic, so exactly the states between transactions are
visible). -/
def visibleStates : List TxOp → List Row → List (List Row)
  | [], s => [s]
  | op :: rest, s => s :: visibleStates rest (applyTx op s)

/-- The transactions issued by `VectorStoreService.replace_segments`
(vector_store.py lines 28-38): one atomic block. -/
def replace_segments_ops (p : Str) (entries : List Row) : List TxOp :=
  [TxOp.replaceTx p entries]

/-- The transactions issued by the storage phase of `apply_embeddings`
(services.py lines 146-167): `_delete_existing` in its own
`transaction.atomic` block, then `_insert_entries` in a second separate
`transaction.atomic` block. -/
def apply_embeddings_storage_ops (p : Str) (entries : List Row) : List TxOp :=
  [TxOp.deleteTx p, TxOp.insertTx entries]

/-- `TITLE_SEPARATOR = "|"` (services.py line 24). -/
def TITLE_SEPARATOR : Char := '|'

/-- Decimal digits of a natural number (Python str(n) for the ids). -/
def natChars (n : Nat) : Str := Nat.toDigits 10 n

/-- `_title_prefix(uploaded)` (services.py lines 47-48). -/
def title_pref (fileName : Str) (id : Nat) : Str :=
  fileName ++ TITLE_SEPARATOR :: (natChars id ++ [TITLE_SEPARATOR])

/-- `_title_for_segment(uploaded, position)` (services.py lines 51-52). -/
def title_for_segment (fileName : Str) (id : Nat) (position : Nat) : Str :=
  title_pref fileName id ++ natChars position

/-- The entry list built by `apply_embeddings` (services.py lines 153-160):
`enumerate(zip(segment_list, vectors), start=1)`. -/
def mkEntries (fileName : Str) (id : Nat) (segs : List Str) (vecs : List Vec) : List Row :=
  (segs.zip vecs).enum.map
    (fun e => ⟨title_for_segment fileName id (e.1 + 1), e.2.1, e.2.2⟩)

/-! ## Ingestion services: `src/ingestion/services.py` -/

/-- Recognized vs unrecognized exceptions escaping a pipeline step
(services.py): `ingestionErr m` is an `IngestionError` (or subclass) with
message `m`; `otherErr m` is any other exception with message `m`. -/
inductive StepErr where
  | ingestionErr (msg : Str)
  | otherErr (msg : Str)
deriving DecidableEq

/-- `DB_MAX_RETRIES = 3` (services.py line 25). -/
def DB_MAX_RETRIES : Nat := 3

/-- `DB_RETRY_DELAY_SECONDS = 1.0` (services.py line 26). -/
def DB_RETRY_DELAY_SECONDS : ℚ := 1

/-- Errors a database call can surface through `_execute_with_retry`:
`operational m` is `django.db.OperationalError` (the only caught class),
`ingestionRaised m` an `IngestionError` raised by the helper itself,
`otherDb m` any other exception (uncaught, propagates). -/
inductive DbErr where
  | operational (msg : Str)
  | ingestionRaised (msg : Str)
  | otherDb (msg : Str)
deriving DecidableEq

/-- The message of the dead `raise IngestionError(...)` after the loop
(services.py line 70). -/
def dbFailAfterRetriesMsg : Str := chars "Database operation failed after retries."

/-- Observable behaviour of one `_execute_with_retry` call: outcome,
number of calls to `func`, number of `connections[alias].close()` calls,
and backoff sleeps in order. -/
structure DbTrace (T : Type) where
  result : Except DbErr T
  calls : Nat
  closes : Nat
  sleeps : List ℚ

/-- The loop `for attempt in range(1, DB_MAX_RETRIES + 1)` of
`_execute_with_retry` (services.py lines 55-70). `action attempt` is the
outcome of `func()` on that attempt. The fuel-0 case is the fall-through
after the loop: `raise IngestionError("Database operation failed after
retries.")` (line 70, unreachable from the call site). -/
def dbGo {T : Type} (action : Nat → Except DbErr T) : Nat → Nat → DbTrace T
  | 0, _ => ⟨Except.error (DbErr.ingestionRaised dbFailAfterRetriesMsg), 0, 0, []⟩
  | fuel + 1, attempt =>
    match action attempt with
    | Except.ok v => ⟨Except.ok v, 1, 0, []⟩
    | Except.error (DbErr.operational m) =>
      if attempt = DB_MAX_RETRIES then
        ⟨Except.error (DbErr.operational m), 1, 1, []⟩
      else
        let r := dbGo action fuel (attempt + 1)
        ⟨r.result, r.calls + 1, r.closes + 1,
          DB_RETRY_DELAY_SECONDS * (attempt : ℚ) :: r.sleeps⟩
    | Except.error e => ⟨Except.error e, 1, 0, []⟩

/-- `_execute_with_retry(alias, func)` (services.py lines 55-70). -/
def execute_with_retry {T : Type} (action : Nat → Except DbErr T) : DbTrace T :=
  dbGo action DB_MAX_RETRIES 1

/-- `UploadStatus` (constants.py lines 6-10). -/
inductive UploadStatus where
  | pending
  | processing
  | ready
  | failed
deriving DecidableEq

/-- The `.value` string of each status. -/
def statusValue : UploadStatus → Str
  | UploadStatus.pending => chars "pending"
  | UploadStatus.processing => chars "processing"
  | UploadStatus.ready => chars "ready"
  | UploadStatus.failed => chars "failed"

/-- The `UploadedFile` model fields the core mutates or reads
(models.py lines 16-36); timestamps are abstract instants. -/
structure UploadedFile where
  id : Nat
  chat_id : Int
  file_name : Str
  status : UploadStatus
  error_message : Str
  processed_at : Option Nat
deriving DecidableEq

/-- The generic user-facing message of the catch-all path
(services.py line 193). -/
def genericFailureMsg : Str := chars "Unable to process file. Please try again later."

/-- Result of one `process_uploaded_file` call: the document record as
last saved, the exception surfaced to the caller (none on success), and
the sequence of `status` values saved to the database, in order. -/
structure ProcessResult where
  doc : UploadedFile
  raised : Option StepErr
  statusSaves : List UploadStatus
deriving DecidableEq

/-- `process_uploaded_file(uploaded, agent)` (services.py lines 170-199).
`pipeline` abstracts the combined outcome of
`parse_document` / `create_segments` / `apply_embeddings`, and `now` the
`timezone.now()` instant. The function first saves the document with
`status=PROCESSING` and a cleared `error_message`, then on an
`IngestionError` saves Failed and re-raises it, on any other exception
saves Failed and raises the generic `IngestionError`, and on success
saves Ready. -/
def process_uploaded_file (doc : UploadedFile) (pipeline : Except StepErr Unit)
    (now : Nat) : ProcessResult :=
  let d1 : UploadedFile := { doc with status := UploadStatus.processing, error_message := [] }
  match pipeline with
  | Except.ok _ =>
    let d2 : UploadedFile := { d1 with status := UploadStatus.ready, processed_at := some now }
    ⟨d2, none, [d1.status, d2.status]⟩
  | Except.error (StepErr.ingestionErr m) =>
    let d2 : UploadedFile :=
      { d1 with status := UploadStatus.failed, error_message := m, processed_at := some now }
    ⟨d2, some (StepErr.ingestionErr m), [d1.status, d2.status]⟩
  | Except.error (StepErr.otherErr m) =>
    let d2 : UploadedFile :=
      { d1 with status := UploadStatus.failed, error_message := m, processed_at := some now }
    ⟨d2, some (StepErr.ingestionErr genericFailureMsg), [d1.status, d2.status]⟩

/-- Position of a status along the chain Pending → Processing → terminal. -/
def statusRank : UploadStatus → Nat
  | UploadStatus.pending => 0
  | UploadStatus.processing => 1
  | UploadStatus.ready => 2
  | UploadStatus.failed => 2

/-- A sequence of statuses only ever moves forward along the chain. -/
def statusesMonotone (l : List UploadStatus) : Prop :=
  l.Chain' (fun a b => statusRank a ≤ statusRank b)

/-! ## Export archive: `build_export_archive` (services.py lines 202-243) -/

/-- JSON values as serialized into `segments.json`; numbers cover the
ints and the float vector components (opaque payloads here). -/
inductive Json where
  | jstr (s : Str)
  | jnum (n : Int)
  | jarr (items : List Json)
  | jobj (fields : List (Str × Json))

/-- Top-level keys of a JSON object. -/
def jsonKeys : Json → List Str
  | Json.jobj fields => fields.map Prod.fst
  | _ => []

/-- One element of the `segments_data` list (services.py lines 220-227). -/
def segmentJson (r : Row) : Json :=
  Json.jobj
    [ (chars "tittle", Json.jstr r.tittle),
      (chars "body", Json.jstr r.body),
      (chars "embeding", Json.jarr (r.embeding.map Json.jnum)) ]

/-- The object passed to `json.dumps` (services.py lines 230-236). -/
def manifestJson (doc : UploadedFile) (entries : List Row) : Json :=
  Json.jobj
    [ (chars "file_name", Json.jstr doc.file_name),
      (chars "chat_id", Json.jnum doc.chat_id),
      (chars "status", Json.jstr (statusValue doc.status)),
      (chars "segments", Json.jarr (entries.map segmentJson)) ]

/-- The title prefix of a document's segments. -/
def docTitlePref (doc : UploadedFile) : Str := title_pref doc.file_name doc.id

/-- A member written into the zip archive. -/
inductive ArchiveMember where
  | originalFile
  | manifest (j : Json)

/-- `build_export_archive(uploaded)` (services.py lines 202-243): the zip
contains the original file under `original/<basename>` (modelled with the
stored file name) and one `segments.json` holding the manifest over the
rows fetched by title prefix ordered by id. -/
def build_export_archive (doc : UploadedFile) (store : List Row) :
    List (Str × ArchiveMember) :=
  [ (chars "original/" ++ doc.file_name, ArchiveMember.originalFile),
    (chars "segments.json",
      ArchiveMember.manifest (manifestJson doc (fetchRows (docTitlePref doc) store))) ]

/-- Whether an archive member is a JSON manifest. -/
def isManifestMember : ArchiveMember → Bool
  | ArchiveMember.manifest _ => true
  | ArchiveMember.originalFile => false

/-! ## Concrete fixtures used by witnesses and counterexamples -/

/-- A provider that fails transiently twice and then succeeds. -/
def c2providerRetryThenOk : Nat → Except EmbedErr Vec :=
  fun k => if k < 3 then Except.error EmbedErr.rateLimitErr else Except.ok [1]

/-- A provider that always times out. -/
def c2providerAlwaysTimeout : Nat → Except EmbedErr Vec :=
  fun _ => Except.error EmbedErr.apiTimeoutErr

/-- A fixed jitter oracle. -/
def c2jitter : Nat → ℚ := fun _ => 1

/-- A per-text embedder mapping each text to one vector. -/
def c3f : Str → Except EmbedErr Vec := fun t => Except.ok [Int.ofNat t.length]

/-- A document already in the Ready status. -/
def c4docReady : UploadedFile := ⟨1, 0, chars "f.txt", UploadStatus.ready, [], some 0⟩

/-- A freshly uploaded Pending document. -/
def c4docPending : UploadedFile := ⟨2, 0, chars "g.txt", UploadStatus.pending, [], none⟩

def c5p : Str := chars "d|1|"

def c5A : List Row := [⟨chars "d|1|9", chars "a", [0]⟩]

def c5B : List Row := [⟨chars "d|1|1", chars "b", [1]⟩, ⟨chars "d|1|2", chars "c", [2]⟩]

def c8doc : UploadedFile := ⟨3, 42, chars "doc.txt", UploadStatus.ready, [], some 5⟩

def c8row : Row := ⟨chars "doc.txt|3|1", chars "hello", [1, 2]⟩

/-- A database action that always hits a transport error. -/
def c9failAction : Nat → Except DbErr Unit :=
  fun _ => Except.error (DbErr.operational (chars "server closed the connection"))

/-! # Claim theorems -/

/-! # Theorems -/

theorem wordsGo_space (a : Str) : ∀ (b : Str) (acc : Str),
    wordsGo (a ++ ' ' :: b) acc = wordsGo a acc ++ wordsGo b [] := by
  induction a with
  | nil =>
    intro b acc
    cases acc <;> simp [wordsGo, isSpaceChar]
  | cons c a ih =>
    intro b acc
    simp only [List.cons_append, wordsGo, List.append_eq]
    by_cases hc : isSpaceChar c
    · simp only [hc, if_true]
      cases acc with
      | nil => simp only [List.isEmpty_nil, if_true]; rw [ih]
      | cons x xs =>
        simp only [List.isEmpty_cons, Bool.false_eq_true, if_false]
        rw [ih, List.cons_append]
    · simp only [hc, Bool.false_eq_true, if_false]
      rw [ih]

/-- Words distribute over a single separating space. -/
theorem wordsOf_space (a b : Str) : wordsOf (a ++ ' ' :: b) = wordsOf a ++ wordsOf b :=
  wordsGo_space a b []

theorem wordsGo_dropWhile_space (s : Str) :
    wordsGo (s.dropWhile isSpaceChar) [] = wordsGo s [] := by
  induction s with
  | nil => rfl
  | cons c rest ih =>
    by_cases hc : isSpaceChar c
    · simp [List.dropWhile_cons, hc, wordsGo, ih]
    · simp [List.dropWhile_cons, hc]

theorem wordsGo_all_space (t : Str) (ht : ∀ c ∈ t, isSpaceChar c = true) :
    ∀ acc, wordsGo t acc = if acc.isEmpty then [] else [acc.reverse] := by
  induction t with
  | nil => intro acc; rfl
  | cons c rest ih =>
    intro acc
    have hc : isSpaceChar c = true := ht c (by simp)
    have hrest : ∀ d ∈ rest, isSpaceChar d = true := fun d hd => ht d (by simp [hd])
    have h0 : wordsGo rest [] = [] := by simpa using ih hrest []
    cases acc <;> simp [wordsGo, hc, h0]

theorem wordsGo_append_spaces (t : Str) (ht : ∀ c ∈ t, isSpaceChar c = true) (a : Str) :
    ∀ acc, wordsGo (a ++ t) acc = wordsGo a acc := by
  induction a with
  | nil =>
    intro acc
    rw [List.nil_append, wordsGo_all_space t ht acc]
    cases acc <;> rfl
  | cons c a ih =>
    intro acc
    simp only [List.cons_append, wordsGo]
    by_cases hc : isSpaceChar c
    · simp only [hc, if_true]
      cases acc <;> simp [ih]
    · simp [hc, ih]

theorem mem_takeWhile_space {l : Str} : ∀ c ∈ l.takeWhile isSpaceChar, isSpaceChar c = true := by
  induction l with
  | nil => simp
  | cons x rest ih =>
    intro c hc
    by_cases hx : isSpaceChar x
    · rw [List.takeWhile_cons_of_pos hx] at hc
      rcases List.mem_cons.mp hc with h | h
      · exact h ▸ hx
      · exact ih c h
    · rw [List.takeWhile_cons_of_neg hx] at hc
      exact absurd hc (List.not_mem_nil c)

theorem wordsOf_rstrip (s : Str) : wordsOf (rstrip s) = wordsOf s := by
  have hdecomp : rstrip s ++ (s.reverse.takeWhile isSpaceChar).reverse = s := by
    unfold rstrip
    rw [← List.reverse_append, List.takeWhile_append_dropWhile, List.reverse_reverse]
  have hsp : ∀ c ∈ (s.reverse.takeWhile isSpaceChar).reverse, isSpaceChar c = true := by
    intro c hc
    exact mem_takeWhile_space c (List.mem_reverse.mp hc)
  conv_rhs => rw [← hdecomp]
  unfold wordsOf
  rw [wordsGo_append_spaces _ hsp]

theorem wordsOf_lstrip (s : Str) : wordsOf (lstrip s) = wordsOf s := by
  unfold wordsOf lstrip
  exact wordsGo_dropWhile_space s

/-- `str.strip()` does not change the word list. -/
theorem wordsOf_pyStrip (s : Str) : wordsOf (pyStrip s) = wordsOf s := by
  unfold pyStrip
  rw [wordsOf_rstrip, wordsOf_lstrip]

/-- A string whose strip is empty has no words. -/
theorem wordsOf_of_pyStrip_nil {s : Str} (h : pyStrip s = []) : wordsOf s = [] := by
  rw [← wordsOf_pyStrip s, h]
  rfl

theorem wordsOf_joinSp (l : List Str) : wordsOf (joinSp l) = wordsConcat l := by
  match l with
  | [] => rfl
  | [s] => simp [joinSp, wordsConcat, wordsOf]
  | s :: s2 :: rest =>
    have ih := wordsOf_joinSp (s2 :: rest)
    simp only [joinSp, wordsOf_space, ih, wordsConcat, List.map_cons, List.flatten_cons]

theorem wordsConcat_append (a b : List Str) :
    wordsConcat (a ++ b) = wordsConcat a ++ wordsConcat b := by
  simp [wordsConcat]

theorem wordsConcat_flatten (gs : List (List Str)) :
    wordsConcat gs.flatten = (gs.map wordsConcat).flatten := by
  induction gs with
  | nil => rfl
  | cons g gs ih => simp [wordsConcat_append, ih]

/-- Structure of the packed chunks: every chunk is the space-join of a
group of consecutive surviving sentences, and the groups partition the
stripped non-empty sentences in order. -/
theorem chunkGo_groups (maxS maxC : Nat) (rest : List Str) :
    ∀ (chunks buffer : List Str) (charCount : Nat),
    ∃ gs : List (List Str),
      chunkGo maxS maxC rest chunks buffer charCount = chunks ++ gs.map joinSp ∧
      gs.flatten = buffer ++ (rest.map pyStrip).filter (fun t => !t.isEmpty) := by
  induction rest with
  | nil =>
    intro chunks buffer charCount
    by_cases hb : buffer = []
    · exact ⟨[], by simp [chunkGo, hb]⟩
    · exact ⟨[buffer], by simp [chunkGo, hb]⟩
  | cons s rest ih =>
    intro chunks buffer charCount
    by_cases ht : pyStrip s = []
    · obtain ⟨gs, h1, h2⟩ := ih chunks buffer charCount
      refine ⟨gs, ?_, ?_⟩
      · simp only [chunkGo]
        rw [if_pos ht]
        exact h1
      · rw [List.map_cons, List.filter_cons_of_neg (by simp [ht])]
        exact h2
    · have hpos : (!(pyStrip s).isEmpty) = true := by
        cases hps : pyStrip s with
        | nil => exact absurd hps ht
        | cons a l => rfl
      by_cases hflush : buffer ≠ [] ∧ (maxS ≤ buffer.length ∨ maxC < charCount + (pyStrip s).length)
      · obtain ⟨gs, h1, h2⟩ := ih (chunks ++ [joinSp buffer]) [pyStrip s] (pyStrip s).length
        refine ⟨buffer :: gs, ?_, ?_⟩
        · simp only [chunkGo]
          rw [if_neg ht, if_pos hflush, h1, List.map_cons, List.append_assoc,
            List.singleton_append]
        · rw [List.flatten_cons, h2, List.map_cons]
          simp [List.filter_cons, hpos]
      · obtain ⟨gs, h1, h2⟩ := ih chunks (buffer ++ [pyStrip s]) (charCount + (pyStrip s).length)
        refine ⟨gs, ?_, ?_⟩
        · simp only [chunkGo]
          rw [if_neg ht, if_neg hflush]
          exact h1
        · rw [h2, List.map_cons]
          simp [List.filter_cons, hpos]

theorem chunk_sentences_groups (sentences : List Str) (maxS maxC : Nat) :
    ∃ gs : List (List Str),
      chunk_sentences sentences maxS maxC = gs.map joinSp ∧
      gs.flatten = (sentences.map pyStrip).filter (fun t => !t.isEmpty) := by
  obtain ⟨gs, h1, h2⟩ := chunkGo_groups maxS maxC sentences [] [] 0
  exact ⟨gs, by simpa using h1, by simpa using h2⟩

theorem wordsConcat_strip_filter (sentences : List Str) :
    wordsConcat ((sentences.map pyStrip).filter (fun t => !t.isEmpty)) =
      wordsConcat sentences := by
  induction sentences with
  | nil => rfl
  | cons s rest ih =>
    by_cases hs : pyStrip s = []
    · have hw : wordsOf s = [] := wordsOf_of_pyStrip_nil hs
      rw [List.map_cons, List.filter_cons_of_neg (by simp [hs]), ih]
      simp [wordsConcat, hw]
    · have hpos : (!(pyStrip s).isEmpty) = true := by
        cases hps : pyStrip s with
        | nil => exact absurd hps hs
        | cons a l => rfl
      rw [List.map_cons, List.filter_cons, if_pos hpos]
      calc wordsConcat (pyStrip s :: (rest.map pyStrip).filter (fun t => !t.isEmpty))
          = wordsOf (pyStrip s) ++ wordsConcat ((rest.map pyStrip).filter (fun t => !t.isEmpty)) := by
            simp [wordsConcat]
        _ = wordsOf s ++ wordsConcat rest := by rw [wordsOf_pyStrip, ih]
        _ = wordsConcat (s :: rest) := by simp [wordsConcat]

/-- Packing chunks preserves the word sequence. -/
theorem chunk_sentences_words (sentences : List Str) (maxS maxC : Nat) :
    wordsConcat (chunk_sentences sentences maxS maxC) = wordsConcat sentences := by
  obtain ⟨gs, h1, h2⟩ := chunk_sentences_groups sentences maxS maxC
  calc wordsConcat (chunk_sentences sentences maxS maxC)
      = wordsConcat (gs.map joinSp) := by rw [h1]
    _ = wordsConcat gs.flatten := by
        simp only [wordsConcat, List.map_map]
        rw [show (wordsOf ∘ joinSp) = fun g => wordsConcat g from funext wordsOf_joinSp]
        rw [← wordsConcat_flatten, wordsConcat]
    _ = wordsConcat sentences := by rw [h2, wordsConcat_strip_filter]

theorem sliceChunks_length_le (n : Nat) (l : Str) :
    ∀ c ∈ sliceChunks n l, c.length ≤ n := by
  by_cases h : l = [] ∨ n = 0
  · rw [sliceChunks, dif_pos h]
    simp
  · rw [sliceChunks, dif_neg h]
    intro c hc
    rcases List.mem_cons.mp hc with rfl | hmem
    · simpa using List.length_take_le n l
    · push_neg at h
      exact sliceChunks_length_le n (l.drop n) c hmem
termination_by l.length
decreasing_by
  push_neg at h
  obtain ⟨hl, hn⟩ := h
  have hlen : 0 < l.length := List.length_pos.mpr hl
  simp only [List.length_drop]
  omega

theorem linesToSegments_length_le (lines : List Str) :
    ∀ c ∈ linesToSegments lines, c.length ≤ MAX_CHARACTERS_PER_CHUNK := by
  induction lines with
  | nil => simp [linesToSegments]
  | cons raw rest ih =>
    intro c hc
    by_cases h0 : pyStrip raw = []
    · simp only [linesToSegments, h0, if_pos] at hc
      exact ih c (by simpa using hc)
    · by_cases h1 : (pyStrip raw).length ≤ MAX_CHARACTERS_PER_CHUNK
      · simp only [linesToSegments] at hc
        rw [if_neg h0, if_pos h1] at hc
        rcases List.mem_cons.mp hc with rfl | hmem
        · exact h1
        · exact ih c hmem
      · simp only [linesToSegments] at hc
        rw [if_neg h0, if_neg h1] at hc
        rcases List.mem_append.mp hc with hmem | hmem
        · exact sliceChunks_length_le _ _ c hmem
        · exact ih c hmem

theorem embedGo_spec (provider : Nat → Except EmbedErr Vec) (jitter : Nat → ℚ) :
    ∀ (fuel attempt : Nat), 1 ≤ fuel → attempt + fuel = API_MAX_RETRIES + 1 →
    1 ≤ (embedGo provider jitter fuel attempt).calls ∧
    (embedGo provider jitter fuel attempt).calls ≤ fuel ∧
    (embedGo provider jitter fuel attempt).sleeps =
      (List.range' attempt ((embedGo provider jitter fuel attempt).calls - 1)).map
        (retryDelay jitter) ∧
    (∀ k ∈ List.range' attempt ((embedGo provider jitter fuel attempt).calls - 1),
      ∃ e, provider k = Except.error e ∧ isTransientCaught e = true) ∧
    (embedGo provider jitter fuel attempt).result =
      provider (attempt + (embedGo provider jitter fuel attempt).calls - 1) ∧
    (∀ e, (embedGo provider jitter fuel attempt).result = Except.error e →
      isTransientCaught e = true →
      attempt + (embedGo provider jitter fuel attempt).calls - 1 = API_MAX_RETRIES) := by
  intro fuel
  induction fuel with
  | zero => intro attempt h1 _; omega
  | succ f ih =>
    intro attempt _ hsum
    match hp : provider attempt with
    | Except.ok v =>
      have hstep : embedGo provider jitter (f + 1) attempt = ⟨Except.ok v, 1, []⟩ := by
        simp only [embedGo, hp]
      rw [hstep]
      dsimp only
      refine ⟨le_refl 1, by omega, by simp, by simp, ?_, ?_⟩
      · simpa using hp.symm
      · intro e he
        exact absurd he (by simp)
    | Except.error e =>
      by_cases htr : isTransientCaught e = true
      · by_cases hlast : attempt = API_MAX_RETRIES
        · subst hlast
          have hstep : embedGo provider jitter (f + 1) API_MAX_RETRIES =
              ⟨Except.error e, 1, []⟩ := by
            simp only [embedGo, hp]
            rw [if_pos htr]
            simp
          rw [hstep]
          dsimp only
          refine ⟨le_refl 1, by omega, by simp, by simp, ?_, ?_⟩
          · simpa using hp.symm
          · intro e2 _ _
            omega
        · have hf : 1 ≤ f := by omega
          have hsum2 : (attempt + 1) + f = API_MAX_RETRIES + 1 := by omega
          obtain ⟨ih1, ih2, ih3, ih4, ih5, ih6⟩ := ih (attempt + 1) hf hsum2
          set r := embedGo provider jitter f (attempt + 1) with hr
          have hstep : embedGo provider jitter (f + 1) attempt =
              ⟨r.result, r.calls + 1, retryDelay jitter attempt :: r.sleeps⟩ := by
            simp only [embedGo, hp]
            rw [if_pos htr, if_neg hlast]
          rw [hstep]
          dsimp only
          have hcalls : r.calls + 1 - 1 = r.calls := by omega
          rw [hcalls]
          have hrange : List.range' attempt r.calls =
              attempt :: List.range' (attempt + 1) (r.calls - 1) := by
            have hc1 : r.calls = (r.calls - 1) + 1 := by omega
            rw [hc1, List.range'_succ]
            rw [← hc1]
          refine ⟨by omega, by omega, ?_, ?_, ?_, ?_⟩
          · rw [hrange, List.map_cons, ih3]
          · intro k hk
            rw [hrange] at hk
            rcases List.mem_cons.mp hk with rfl | hmem
            · exact ⟨e, hp, htr⟩
            · exact ih4 k hmem
          · rw [ih5]
            congr 1
            omega
          · intro e2 he2 htr2
            have h6 := ih6 e2 he2 htr2
            omega
      · have hstep : embedGo provider jitter (f + 1) attempt =
            ⟨Except.error e, 1, []⟩ := by
          simp only [embedGo, hp]
          rw [if_neg htr]
        rw [hstep]
        dsimp only
        refine ⟨le_refl 1, by omega, by simp, by simp, ?_, ?_⟩
        · simpa using hp.symm
        · intro e2 he2 htr2
          simp only [Except.error.injEq] at he2
          exact absurd (he2 ▸ htr2) htr

theorem graphRun_eq_seq (f : Str → Except EmbedErr Vec) (texts : List Str) :
    ∀ (k index : Nat), texts.length - index ≤ k → ∀ embs,
    graphRun f texts index embs =
      match seqEmbed f (texts.drop index) with
      | Except.error e => Except.error e
      | Except.ok vs => Except.ok (embs ++ vs) := by
  intro k
  induction k with
  | zero =>
    intro index hk embs
    have hge : texts.length ≤ index := by omega
    rw [graphRun, dif_neg (by omega)]
    rw [List.drop_eq_nil_of_le hge]
    simp [seqEmbed]
  | succ k ih =>
    intro index hk embs
    by_cases hlt : index < texts.length
    · rw [graphRun, dif_pos hlt, List.drop_eq_getElem_cons hlt]
      simp only [List.get_eq_getElem, seqEmbed]
      match hf : f texts[index] with
      | Except.error e => rfl
      | Except.ok v =>
        dsimp only
        rw [ih (index + 1) (by omega) (embs ++ [v])]
        match seqEmbed f (texts.drop (index + 1)) with
        | Except.error e => rfl
        | Except.ok vs => simp
    · rw [graphRun, dif_neg hlt]
      rw [List.drop_eq_nil_of_le (by omega)]
      simp [seqEmbed]

theorem seqEmbed_append (f : Str → Except EmbedErr Vec) (a b : List Str) :
    seqEmbed f (a ++ b) =
      match seqEmbed f a with
      | Except.error e => Except.error e
      | Except.ok va =>
        match seqEmbed f b with
        | Except.error e => Except.error e
        | Except.ok vb => Except.ok (va ++ vb) := by
  induction a with
  | nil =>
    simp only [List.nil_append, seqEmbed]
    match seqEmbed f b with
    | Except.error e => rfl
    | Except.ok vb => rfl
  | cons t rest ih =>
    simp only [List.cons_append, seqEmbed, List.append_eq, ih]
    match f t with
    | Except.error e => rfl
    | Except.ok v =>
      match seqEmbed f rest with
      | Except.error e => rfl
      | Except.ok va =>
        match seqEmbed f b with
        | Except.error e => rfl
        | Except.ok vb => simp

theorem embedBatches_eq_seq (f : Str → Except EmbedErr Vec) (ts : List Str) :
    embedBatches f ts = seqEmbed f ts := by
  by_cases hnil : ts = []
  · subst hnil
    rw [embedBatches]
    simp [seqEmbed]
  · rw [embedBatches, if_neg hnil]
    have htake := graphRun_eq_seq f (ts.take SEGMENT_BATCH_SIZE)
      (ts.take SEGMENT_BATCH_SIZE).length 0 (by omega) []
    rw [List.drop_zero] at htake
    have hsplit : ts = ts.take SEGMENT_BATCH_SIZE ++ ts.drop SEGMENT_BATCH_SIZE :=
      (List.take_append_drop SEGMENT_BATCH_SIZE ts).symm
    have hrec : embedBatches f (ts.drop SEGMENT_BATCH_SIZE) =
        seqEmbed f (ts.drop SEGMENT_BATCH_SIZE) :=
      embedBatches_eq_seq f (ts.drop SEGMENT_BATCH_SIZE)
    conv_rhs => rw [hsplit]
    rw [seqEmbed_append, htake, hrec]
    match seqEmbed f (ts.take SEGMENT_BATCH_SIZE) with
    | Except.error e => rfl
    | Except.ok va =>
      match seqEmbed f (ts.drop SEGMENT_BATCH_SIZE) with
      | Except.error e => rfl
      | Except.ok vb => simp
termination_by ts.length
decreasing_by
  have hpos : 0 < ts.length := List.length_pos.mpr hnil
  simp only [List.length_drop, SEGMENT_BATCH_SIZE]
  omega

/-- Batch boundaries are invisible: `embed_texts` equals the unbatched
sequential embedding. -/
theorem embed_texts_eq_seq (f : Str → Except EmbedErr Vec) (texts : List Str) :
    embed_texts f texts = seqEmbed f texts := by
  by_cases hnil : texts = []
  · subst hnil; rfl
  · rw [embed_texts, if_neg hnil, embedBatches_eq_seq]

theorem seqEmbed_ok_spec (f : Str → Except EmbedErr Vec) :
    ∀ (texts : List Str) (vs : List Vec), seqEmbed f texts = Except.ok vs →
    vs.length = texts.length ∧
    ∀ (i : Nat) (h : i < texts.length) (hv : i < vs.length),
      f (texts.get ⟨i, h⟩) = Except.ok (vs.get ⟨i, hv⟩) := by
  intro texts
  induction texts with
  | nil =>
    intro vs hvs
    simp only [seqEmbed, Except.ok.injEq] at hvs
    subst hvs
    exact ⟨rfl, fun i h _ => absurd h (by simp)⟩
  | cons t rest ih =>
    intro vs hvs
    simp only [seqEmbed] at hvs
    match hf : f t with
    | Except.error e => rw [hf] at hvs; exact absurd hvs (by simp)
    | Except.ok v =>
      rw [hf] at hvs
      match hrest : seqEmbed f rest with
      | Except.error e => rw [hrest] at hvs; exact absurd hvs (by simp)
      | Except.ok ws =>
        rw [hrest] at hvs
        simp only [Except.ok.injEq] at hvs
        subst hvs
        obtain ⟨hlen, hidx⟩ := ih ws hrest
        refine ⟨by simp [hlen], ?_⟩
        intro i h hv
        match i with
        | 0 => simpa using hf
        | j + 1 =>
          have hj : j < rest.length := by simpa using h
          have hvj : j < ws.length := by simpa using hv
          simpa using hidx j hj hvj

theorem fetchRows_deleteRows (p : Str) (s : List Row) :
    fetchRows p (deleteRows p s) = [] := by
  unfold fetchRows deleteRows
  rw [List.filter_filter]
  simp

theorem fetchRows_append (p : Str) (a b : List Row) :
    fetchRows p (a ++ b) = fetchRows p a ++ fetchRows p b := by
  simp [fetchRows]

theorem fetchRows_of_all_match (p : Str) (b : List Row)
    (hb : ∀ r ∈ b, rowMatches p r = true) : fetchRows p b = b :=
  List.filter_eq_self.mpr hb

/-- C6: for every input text processed in sentence mode, concatenating
the words of all chunks returned by the Segmenter reproduces exactly the
words of the sentences that survive the informativeness filter, in their
original order; moreover each chunk is the space join of one group of
consecutive surviving sentences and the groups partition the stripped
non-empty survivors in order, so no surviving sentence is duplicated,
dropped, split across chunks, or reordered. -/
theorem C6_segmenter_words_preserved (tokenize : Str → List Str)
    (informative : Str → Bool) (text : Str) (maxS maxC : Nat) :
    wordsConcat (segment_text tokenize informative text maxS maxC false) =
      wordsConcat ((tokenize text).filter informative) ∧
    ∃ gs : List (List Str),
      segment_text tokenize informative text maxS maxC false = gs.map joinSp ∧
      gs.flatten = (((tokenize text).filter informative).map pyStrip).filter
        (fun t => !t.isEmpty) := by
  have hmode : segment_text tokenize informative text maxS maxC false =
      chunk_sentences ((tokenize text).filter informative) maxS
        (min maxC MAX_CHARACTERS_PER_CHUNK) := by
    simp [segment_text]
  constructor
  · rw [hmode, chunk_sentences_words]
  · rw [hmode]
    exact chunk_sentences_groups _ _ _

/-- C10: the character cap the Segmenter actually applies is never larger
than 200: in sentence mode `segment_text` behaves exactly as with the cap
`min(max_characters, MAX_CHARACTERS_PER_CHUNK)`, so a cap above 200 is
silently reduced to 200; in forced line-chunk mode the `max_characters`
argument is ignored entirely and every returned chunk is hard-wrapped to
at most the fixed 200-character constant. -/
theorem C10_char_cap (tokenize : Str → List Str) (informative : Str → Bool)
    (text : Str) (maxS maxC maxC2 : Nat) :
    segment_text tokenize informative text maxS maxC false =
      segment_text tokenize informative text maxS (min maxC MAX_CHARACTERS_PER_CHUNK) false ∧
    segment_text tokenize informative text maxS maxC true =
      segment_text tokenize informative text maxS maxC2 true ∧
    ∀ c ∈ segment_text tokenize informative text maxS maxC true,
      c.length ≤ MAX_CHARACTERS_PER_CHUNK := by
  refine ⟨?_, ?_, ?_⟩
  · simp [segment_text, Nat.min_assoc]
  · simp [segment_text]
  · intro c hc
    have hmode : segment_text tokenize informative text maxS maxC true =
        split_lines_preserving_order text := by
      simp [segment_text]
    rw [hmode] at hc
    exact linesToSegments_length_le _ c hc

/-- C10 witness: a concrete chunk of a concrete forced-line-mode run. -/
theorem C10_char_cap_witness :
    chars "ab" ∈ segment_text (fun t => [t]) (fun _ => true) (chars "ab") 3 1000 true ∧
    (chars "ab").length ≤ MAX_CHARACTERS_PER_CHUNK := by
  have hmem : chars "ab" ∈ segment_text (fun t => [t]) (fun _ => true) (chars "ab") 3 1000 true := by
    decide
  exact ⟨hmem,
    (C10_char_cap (fun t => [t]) (fun _ => true) (chars "ab") 3 1000 5).2.2 (chars "ab") hmem⟩

/-- C2: for every single-text embedding request the client makes at most
6 attempts (`API_MAX_RETRIES`); every attempt before the last call failed
with a classified-transient error; the backoff sleeps are exactly
`API_RETRY_BASE_DELAY * attempt + jitter(attempt)` for the failed
attempts 1..calls-1; the final outcome is the outcome of the last call,
so on the 6th failed transient attempt that error propagates; and a
transient error only propagates on attempt 6, so any propagated
non-transient failure was raised on the very attempt it occurred with no
retry after it. -/
theorem C2_retry_policy (provider : Nat → Except EmbedErr Vec) (jitter : Nat → ℚ) :
    1 ≤ (embedSingle provider jitter).calls ∧
    (embedSingle provider jitter).calls ≤ API_MAX_RETRIES ∧
    (embedSingle provider jitter).sleeps =
      (List.range' 1 ((embedSingle provider jitter).calls - 1)).map (retryDelay jitter) ∧
    (∀ k ∈ List.range' 1 ((embedSingle provider jitter).calls - 1),
      ∃ e, provider k = Except.error e ∧ isTransientCaught e = true) ∧
    (embedSingle provider jitter).result = provider (embedSingle provider jitter).calls ∧
    (∀ e, (embedSingle provider jitter).result = Except.error e →
      isTransientCaught e = true →
      (embedSingle provider jitter).calls = API_MAX_RETRIES) := by
  obtain ⟨h1, h2, h3, h4, h5, h6⟩ := embedGo_spec provider jitter API_MAX_RETRIES 1
    (by simp [API_MAX_RETRIES]) (by simp [API_MAX_RETRIES])
  have harith : 1 + (embedGo provider jitter API_MAX_RETRIES 1).calls - 1 =
      (embedGo provider jitter API_MAX_RETRIES 1).calls := by omega
  refine ⟨h1, h2, h3, h4, ?_, ?_⟩
  · exact harith ▸ h5
  · intro e he htr
    have h7 := h6 e he htr
    show (embedGo provider jitter API_MAX_RETRIES 1).calls = API_MAX_RETRIES
    omega

/-- C2 witness: a run succeeding on the 3rd attempt had a transient
failure on attempt 1, and a run of 6 transient failures makes exactly
`API_MAX_RETRIES` calls. -/
theorem C2_retry_policy_witness :
    (∃ e, c2providerRetryThenOk 1 = Except.error e ∧ isTransientCaught e = true) ∧
    (embedSingle c2providerAlwaysTimeout c2jitter).calls = API_MAX_RETRIES :=
  ⟨(C2_retry_policy c2providerRetryThenOk c2jitter).2.2.2.1 1 (by decide),
   (C2_retry_policy c2providerAlwaysTimeout c2jitter).2.2.2.2.2 EmbedErr.apiTimeoutErr
     (by decide) (by decide)⟩

/-- C3: for every non-empty input list on which `embed_texts` returns
normally, the returned vector list has the same length as the input and
the vector at position i is the embedding of the text at position i; the
internal split into batches of `SEGMENT_BATCH_SIZE` has no observable
effect (the result equals the unbatched sequential embedding). -/
theorem C3_embed_texts_order (f : Str → Except EmbedErr Vec) (texts : List Str)
    (vs : List Vec) (_hne : texts ≠ []) (hok : embed_texts f texts = Except.ok vs) :
    vs.length = texts.length ∧
    (∀ (i : Nat) (h : i < texts.length) (hv : i < vs.length),
      f (texts.get ⟨i, h⟩) = Except.ok (vs.get ⟨i, hv⟩)) ∧
    embed_texts f texts = seqEmbed f texts := by
  have hseq : embed_texts f texts = seqEmbed f texts := embed_texts_eq_seq f texts
  have hsok : seqEmbed f texts = Except.ok vs := by rw [← hseq]; exact hok
  obtain ⟨hlen, hidx⟩ := seqEmbed_ok_spec f texts vs hsok
  exact ⟨hlen, hidx, hseq⟩

/-- C3 witness: a concrete two-text run. -/
theorem C3_embed_texts_order_witness :
    c3f (chars "a") = Except.ok [1] ∧
    embed_texts c3f [chars "a", chars "bc"] = seqEmbed c3f [chars "a", chars "bc"] := by
  have hok : embed_texts c3f [chars "a", chars "bc"] = Except.ok [[1], [2]] :=
    (embed_texts_eq_seq _ _).trans (by decide)
  have h := C3_embed_texts_order c3f [chars "a", chars "bc"] [[1], [2]] (by decide) hok
  exact ⟨h.2.1 0 (by decide) (by decide), h.2.2⟩

/-- C1 counterexample: the pipeline's segment replacement
(`apply_embeddings`, services.py lines 146-167) issues the delete and the
bulk insert as two separate transactions, not one: with one existing row
under the prefix and one new entry, the state visible between the two
transactions contains neither the old nor the new row, so the
old-deleted/new-absent intermediate state is visible to fetches from
other transactions. -/
theorem C1_counterexample :
    (apply_embeddings_storage_ops (chars "d|1|") [⟨chars "d|1|1", chars "new", [1]⟩]).length ≠ 1 ∧
    visibleStates (apply_embeddings_storage_ops (chars "d|1|") [⟨chars "d|1|1", chars "new", [1]⟩])
        [⟨chars "d|1|1", chars "old", [0]⟩] =
      [ [⟨chars "d|1|1", chars "old", [0]⟩], [], [⟨chars "d|1|1", chars "new", [1]⟩] ] ∧
    fetchRows (chars "d|1|") [⟨chars "d|1|1", chars "old", [0]⟩] ≠ [] ∧
    fetchRows (chars "d|1|") ([] : List Row) = [] := by decide

/-- C1 amended: `VectorStoreService.replace_segments` is atomic — its
delete and insert form one transaction, so the only visible states are
the initial and final ones; the pipeline's `apply_embeddings`, however,
issues two separate transactions, exposing the intermediate state with
the prefix's rows deleted and the new rows not yet inserted (that
intermediate state has no rows under the prefix); both paths reach the
same final state. -/
theorem C1_amended_atomicity (p : Str) (entries : List Row) (s : List Row) :
    visibleStates (replace_segments_ops p entries) s =
      [s, applyTx (TxOp.replaceTx p entries) s] ∧
    (replace_segments_ops p entries).length = 1 ∧
    visibleStates (apply_embeddings_storage_ops p entries) s =
      [s, deleteRows p s, deleteRows p s ++ entries] ∧
    fetchRows p (deleteRows p s) = [] ∧
    applyOps (apply_embeddings_storage_ops p entries) s =
      applyOps (replace_segments_ops p entries) s := by
  refine ⟨rfl, rfl, rfl, fetchRows_deleteRows p s, ?_⟩
  simp only [applyOps, apply_embeddings_storage_ops, replace_segments_ops,
    List.foldl, applyTx]
  cases entries with
  | nil => simp
  | cons r rest => simp

/-- C5: replace, not append: replacing the segments under a prefix with
entry set A and then with entry set B leaves exactly B present — a fetch
by that prefix afterwards returns precisely B's entries in order, and
none of A's titles (beyond any title B itself reuses); the entries the
pipeline builds always carry the document's title prefix. -/
theorem C5_replace_not_append (p : Str) (A B : List Row) (s : List Row)
    (hB : ∀ r ∈ B, rowMatches p r = true) :
    fetchRows p (applyOps (apply_embeddings_storage_ops p B)
      (applyOps (apply_embeddings_storage_ops p A) s)) = B ∧
    (∀ t, t ∈ A.map Row.tittle → t ∉ B.map Row.tittle →
      t ∉ (fetchRows p (applyOps (apply_embeddings_storage_ops p B)
        (applyOps (apply_embeddings_storage_ops p A) s))).map Row.tittle) ∧
    (∀ (fileName : Str) (id : Nat) (segs : List Str) (vecs : List Vec),
      ∀ r ∈ mkEntries fileName id segs vecs,
        rowMatches (title_pref fileName id) r = true) := by
  have hfinal : applyOps (apply_embeddings_storage_ops p B)
      (applyOps (apply_embeddings_storage_ops p A) s) =
      deleteRows p (deleteRows p s ++ A) ++ B := rfl
  have hfetch : fetchRows p (applyOps (apply_embeddings_storage_ops p B)
      (applyOps (apply_embeddings_storage_ops p A) s)) = B := by
    rw [hfinal, fetchRows_append, fetchRows_deleteRows,
      fetchRows_of_all_match p B hB, List.nil_append]
  refine ⟨hfetch, ?_, ?_⟩
  · intro t _ htB hmem
    rw [hfetch] at hmem
    exact htB hmem
  · intro fileName id segs vecs r hr
    obtain ⟨e, _, rfl⟩ := List.mem_map.mp hr
    simp only [rowMatches, title_for_segment]
    exact List.isPrefixOf_iff_prefix.mpr (List.prefix_append _ _)

/-- C5 witness: a concrete double replacement. -/
theorem C5_replace_not_append_witness :
    fetchRows c5p (applyOps (apply_embeddings_storage_ops c5p c5B)
      (applyOps (apply_embeddings_storage_ops c5p c5A) [])) = c5B ∧
    chars "d|1|9" ∉ (fetchRows c5p (applyOps (apply_embeddings_storage_ops c5p c5B)
      (applyOps (apply_embeddings_storage_ops c5p c5A) []))).map Row.tittle ∧
    rowMatches (title_pref (chars "f") 1)
      ⟨title_for_segment (chars "f") 1 1, chars "x", [3]⟩ = true := by
  refine ⟨(C5_replace_not_append c5p c5A c5B [] (by decide)).1,
    (C5_replace_not_append c5p c5A c5B [] (by decide)).2.1 (chars "d|1|9")
      (by decide) (by decide),
    (C5_replace_not_append c5p c5A c5B [] (by decide)).2.2 (chars "f") 1
      [chars "x"] [[3]] _ (by decide)⟩

/-- C4 counterexample: `process_uploaded_file` on a Ready document
unconditionally saves it back to Processing (services.py lines 172-174),
so the status sequence starting from Ready is not monotone along
Pending → Processing → terminal — the document leaves the Ready status. -/
theorem C4_counterexample :
    c4docReady.status = UploadStatus.ready ∧
    (process_uploaded_file c4docReady (Except.ok ()) 1).statusSaves =
      [UploadStatus.processing, UploadStatus.ready] ∧
    ¬ statusesMonotone (c4docReady.status ::
        (process_uploaded_file c4docReady (Except.ok ()) 1).statusSaves) := by
  refine ⟨rfl, rfl, ?_⟩
  simp [statusesMonotone, List.chain'_cons, statusRank, process_uploaded_file, c4docReady]

/-- C4 amended: within one `process_uploaded_file` call on a document
whose status is Pending (or Processing), every saved status moves
forward along Pending → Processing → Ready or Failed and the call ends
in a terminal status; but the function performs no status guard, so
invoked on a Ready or Failed document it re-enters Processing
(re-processing), which is why monotonicity only holds from non-terminal
starting statuses. -/
theorem C4_amended_monotone (doc : UploadedFile) (pipeline : Except StepErr Unit)
    (now : Nat) (hstart : statusRank doc.status ≤ 1) :
    statusesMonotone (doc.status :: (process_uploaded_file doc pipeline now).statusSaves) ∧
    ((process_uploaded_file doc pipeline now).doc.status = UploadStatus.ready ∨
      (process_uploaded_file doc pipeline now).doc.status = UploadStatus.failed) ∧
    (process_uploaded_file doc pipeline now).statusSaves.getLast? =
      some (process_uploaded_file doc pipeline now).doc.status := by
  match pipeline with
  | Except.ok _ =>
    refine ⟨?_, Or.inl rfl, rfl⟩
    simp only [process_uploaded_file, statusesMonotone, List.chain'_cons,
      List.chain'_singleton, and_true]
    exact ⟨hstart, by simp [statusRank]⟩
  | Except.error (StepErr.ingestionErr m) =>
    refine ⟨?_, Or.inr rfl, rfl⟩
    simp only [process_uploaded_file, statusesMonotone, List.chain'_cons,
      List.chain'_singleton, and_true]
    exact ⟨hstart, by simp [statusRank]⟩
  | Except.error (StepErr.otherErr m) =>
    refine ⟨?_, Or.inr rfl, rfl⟩
    simp only [process_uploaded_file, statusesMonotone, List.chain'_cons,
      List.chain'_singleton, and_true]
    exact ⟨hstart, by simp [statusRank]⟩

/-- C4 witness: a concrete Pending document processed successfully. -/
theorem C4_amended_monotone_witness :
    statusesMonotone (c4docPending.status ::
      (process_uploaded_file c4docPending (Except.ok ()) 3).statusSaves) ∧
    ((process_uploaded_file c4docPending (Except.ok ()) 3).doc.status = UploadStatus.ready ∨
      (process_uploaded_file c4docPending (Except.ok ()) 3).doc.status = UploadStatus.failed) :=
  ⟨(C4_amended_monotone c4docPending (Except.ok ()) 3 (by decide)).1,
   (C4_amended_monotone c4docPending (Except.ok ()) 3 (by decide)).2.1⟩

/-- C7: when processing fails with an exception that is not a recognized
ingestion-error kind, the document records the original message
(status Failed, `error_message` set, `processed_at` set) while the caller
receives a generic `IngestionError` whose message is the fixed
non-leaking text, identical whatever the internal message was; a
recognized ingestion error is re-raised with its message intact. -/
theorem C7_generic_error_masking (doc : UploadedFile) (m m2 : Str) (now : Nat) :
    (process_uploaded_file doc (Except.error (StepErr.otherErr m)) now).doc.status =
      UploadStatus.failed ∧
    (process_uploaded_file doc (Except.error (StepErr.otherErr m)) now).doc.error_message = m ∧
    (process_uploaded_file doc (Except.error (StepErr.otherErr m)) now).doc.processed_at =
      some now ∧
    (process_uploaded_file doc (Except.error (StepErr.otherErr m)) now).raised =
      some (StepErr.ingestionErr genericFailureMsg) ∧
    (process_uploaded_file doc (Except.error (StepErr.otherErr m)) now).raised =
      (process_uploaded_file doc (Except.error (StepErr.otherErr m2)) now).raised ∧
    (process_uploaded_file doc (Except.error (StepErr.ingestionErr m)) now).raised =
      some (StepErr.ingestionErr m) ∧
    (process_uploaded_file doc (Except.error (StepErr.ingestionErr m)) now).doc.error_message =
      m :=
  ⟨rfl, rfl, rfl, rfl, rfl, rfl, rfl⟩

/-- C8 counterexample: the manifest's top-level keys are
`file_name, chat_id, status, segments` — not `tenant_id` — and each
segment object uses the code's misspelled keys `tittle` and `embeding`,
not `title` and `embedding` as the claim states. -/
theorem C8_counterexample :
    jsonKeys (manifestJson c8doc [c8row]) =
      [chars "file_name", chars "chat_id", chars "status", chars "segments"] ∧
    chars "tenant_id" ∉ jsonKeys (manifestJson c8doc [c8row]) ∧
    jsonKeys (segmentJson c8row) = [chars "tittle", chars "body", chars "embeding"] ∧
    chars "title" ∉ jsonKeys (segmentJson c8row) ∧
    chars "embedding" ∉ jsonKeys (segmentJson c8row) := by decide

/-- C8 amended: the export archive contains the original file under
`original/<name>` and exactly one `segments.json` manifest; the manifest's
top-level fields are `file_name`, `chat_id`, `status`, `segments`, each
segment object has the fields `tittle`, `body`, `embeding` (the embedding
as a plain numeric array), and the number of segment objects equals the
number of the document's rows live in the store at export time. -/
theorem C8_amended_archive_shape (doc : UploadedFile) (store : List Row) :
    (build_export_archive doc store).map Prod.fst =
      [chars "original/" ++ doc.file_name, chars "segments.json"] ∧
    ((build_export_archive doc store).map Prod.snd).countP isManifestMember = 1 ∧
    manifestJson doc (fetchRows (docTitlePref doc) store) =
      Json.jobj
        [ (chars "file_name", Json.jstr doc.file_name),
          (chars "chat_id", Json.jnum doc.chat_id),
          (chars "status", Json.jstr (statusValue doc.status)),
          (chars "segments",
            Json.jarr ((fetchRows (docTitlePref doc) store).map segmentJson)) ] ∧
    jsonKeys (manifestJson doc (fetchRows (docTitlePref doc) store)) =
      [chars "file_name", chars "chat_id", chars "status", chars "segments"] ∧
    (∀ r : Row, jsonKeys (segmentJson r) = [chars "tittle", chars "body", chars "embeding"]) ∧
    ((fetchRows (docTitlePref doc) store).map segmentJson).length =
      (fetchRows (docTitlePref doc) store).length := by
  refine ⟨rfl, ?_, rfl, rfl, fun r => rfl, by simp⟩
  simp [build_export_archive, isManifestMember]

/-- C9 counterexample: after its 3 attempts are exhausted,
`_execute_with_retry` re-raises the original `OperationalError` — no
`StorageError` exists in the repository, and the helper's own
`IngestionError` fall-back (services.py line 70) is never the outcome;
the retries themselves do happen with linear backoff and a connection
close after every failed attempt. -/
theorem C9_counterexample :
    (execute_with_retry c9failAction).result =
      Except.error (DbErr.operational (chars "server closed the connection")) ∧
    (execute_with_retry c9failAction).result ≠
      Except.error (DbErr.ingestionRaised dbFailAfterRetriesMsg) ∧
    (execute_with_retry c9failAction).calls = 3 ∧
    (execute_with_retry c9failAction).closes = 3 ∧
    (execute_with_retry c9failAction).sleeps = [1, 2] := by
  refine ⟨by decide, by decide, by decide, by decide, ?_⟩
  simp [execute_with_retry, dbGo, c9failAction, DB_MAX_RETRIES, DB_RETRY_DELAY_SECONDS]

/-- C9 amended: a vector-store call hitting a transport error
(`OperationalError`) on every attempt is retried up to `DB_MAX_RETRIES`
(3) attempts with linear backoff `DB_RETRY_DELAY_SECONDS * attempt`,
closing (and thereby forcing a reconnect of) the connection after every
failed attempt; after exhaustion the call fails by re-raising the last
`OperationalError` itself, never the helper's dead `IngestionError`
fall-back (and the repository defines no `StorageError`). -/
theorem C9_amended_retry (action : Nat → Except DbErr Unit) (msgs : Nat → Str)
    (h : ∀ k, 1 ≤ k → k ≤ DB_MAX_RETRIES →
      action k = Except.error (DbErr.operational (msgs k))) :
    (execute_with_retry action).result =
      Except.error (DbErr.operational (msgs DB_MAX_RETRIES)) ∧
    (execute_with_retry action).calls = DB_MAX_RETRIES ∧
    (execute_with_retry action).closes = DB_MAX_RETRIES ∧
    (execute_with_retry action).sleeps =
      [DB_RETRY_DELAY_SECONDS * (1 : ℚ), DB_RETRY_DELAY_SECONDS * (2 : ℚ)] ∧
    (∀ m : Str, (execute_with_retry action).result ≠
      Except.error (DbErr.ingestionRaised m)) := by
  have h1 := h 1 (by omega) (by decide)
  have h2 := h 2 (by omega) (by decide)
  have h3 := h 3 (by omega) (by decide)
  have hstep : execute_with_retry action =
      ⟨Except.error (DbErr.operational (msgs 3)), 3, 3,
        [DB_RETRY_DELAY_SECONDS * (1 : ℚ), DB_RETRY_DELAY_SECONDS * (2 : ℚ)]⟩ := by
    rw [execute_with_retry]
    simp [dbGo, DB_MAX_RETRIES, h1, h2, h3]
  rw [hstep]
  refine ⟨rfl, rfl, rfl, rfl, ?_⟩
  intro m hm
  simp at hm

/-- C9 witness: the always-failing concrete action. -/
theorem C9_amended_retry_witness :
    (execute_with_retry c9failAction).calls = DB_MAX_RETRIES ∧
    (execute_with_retry c9failAction).result ≠
      Except.error (DbErr.ingestionRaised dbFailAfterRetriesMsg) :=
  ⟨(C9_amended_retry c9failAction (fun _ => chars "server closed the connection")
      (fun _ _ _ => rfl)).2.1,
   (C9_amended_retry c9failAction (fun _ => chars "server closed the connection")
      (fun _ _ _ => rfl)).2.2.2.2 dbFailAfterRetriesMsg⟩

end EmbedBot
